import Mathlib

/-!
Verification of the fluent-iter traversal engine (`src/util.ts`,
`FluentIterable`, `FluentAsyncIterable`) against its specification.

The JavaScript code is shallowly embedded: runtime values are modelled by the
inductive `JsVal`, a synchronous or asynchronous cursor is modelled as the
list of elements it will produce, fallible operations return `Except String`,
and the `flat()` while-loop is modelled with explicit fuel (one unit per loop
iteration) so that divergence of the loop is observable as `none`.
-/

/-- Model of a JavaScript runtime value, restricted to the shapes the library
distinguishes: nullish values, primitives, synchronous iterables (arrays and
strings carry `Symbol.iterator`), asynchronous iterables (async generator
objects carry `Symbol.asyncIterator`), and zero-argument supplier functions
(modelled by the value they return when called). -/
inductive JsVal : Type where
  | null
  | undef
  | bool (b : Bool)
  | num (n : Int)
  | str (s : String)
  | arr (elems : List JsVal)
  | asyncSeq (elems : List JsVal)
  | fn (ret : JsVal)
deriving Repr

/-- JavaScript `Boolean(x)` coercion: nullish values, `false`, `0` and the
empty string are falsy; objects (arrays, async generators, functions) are
always truthy. -/
def truthy : JsVal → Bool
  | .null => false
  | .undef => false
  | .bool b => b
  | .num n => n != 0
  | .str s => s != ""
  | .arr _ => true
  | .asyncSeq _ => true
  | .fn _ => true

/-- Whether `typeof x[Symbol.iterator] === 'function'` holds: in a JS runtime
both arrays and primitive strings expose a callable `Symbol.iterator` through
their prototypes; no other value in the universe does. -/
def hasSyncIterMember : JsVal → Bool
  | .arr _ => true
  | .str _ => true
  | _ => false

/-- Whether `typeof x[Symbol.asyncIterator] === 'function'` holds: only async
generator objects expose it. -/
def hasAsyncIterMember : JsVal → Bool
  | .asyncSeq _ => true
  | _ => false

/-- `isIterable` from `util.ts`:
`Boolean(x) && typeof x[Symbol.iterator] === 'function'`. -/
def isIterable (x : JsVal) : Bool :=
  truthy x && hasSyncIterMember x

/-- `isAsyncIterable` from `util.ts`:
`Boolean(x) && typeof x[Symbol.asyncIterator] === 'function'`. -/
def isAsyncIterable (x : JsVal) : Bool :=
  truthy x && hasAsyncIterMember x

/-- Spec-side notion (§4.1): `x` is non-null and non-undefined.  This is the
wording of the specification, to be compared with the truthiness test the
code actually performs. -/
def nonNullish : JsVal → Bool
  | .null => false
  | .undef => false
  | _ => true

/-- `typeof input === 'function'`. -/
def isCallable : JsVal → Bool
  | .fn _ => true
  | _ => false

/-- Calling a zero-argument function value (`input()`); on a non-function the
result is irrelevant (the code only calls after a `typeof` check). -/
def call0 : JsVal → JsVal
  | .fn r => r
  | v => v

/-- The elements produced by the synchronous cursor `x[Symbol.iterator]()`:
an array yields its elements, a string yields its characters each as a
one-character string, anything else yields nothing. -/
def iterOf : JsVal → List JsVal
  | .arr xs => xs
  | .str s => s.toList.map (fun c => .str (String.singleton c))
  | _ => []

/-- The elements produced by the asynchronous cursor
`x[Symbol.asyncIterator]()`. -/
def aiterOf : JsVal → List JsVal
  | .asyncSeq xs => xs
  | _ => []

/-- `FluentIterable`'s constructor: store an iterable input directly, call a
function input once and store its result, otherwise throw
`TypeError('input is not an iterable')`. -/
def constructSync (input : JsVal) : Except String JsVal :=
  if isIterable input then .ok input
  else if isCallable input then .ok (call0 input)
  else .error "input is not an iterable"

/-- `FluentAsyncIterable`'s constructor: store an async-iterable input
directly, call a function input once and store its result, otherwise throw
`TypeError('input is not an async iterable')`. -/
def constructAsync (input : JsVal) : Except String JsVal :=
  if isAsyncIterable input then .ok input
  else if isCallable input then .ok (call0 input)
  else .error "input is not an async iterable"

/-- `FluentIterable.toArray`, i.e. `Array.from(this.#input)`: `Array.from`
throws on nullish input, drains a synchronous iterable, and produces `[]`
from any other value (treated as an array-like without a length). -/
def toArrayFrom (stored : JsVal) : Except String (List JsVal) :=
  match stored with
  | .null => .error "TypeError"
  | .undef => .error "TypeError"
  | v => if hasSyncIterMember v then .ok (iterOf v) else .ok []

/-- `FluentAsyncIterable.toArray`, a `for await … of` loop pushing each
element: `for await` drains an async iterable, falls back to a synchronous
iterable, and throws on anything else. -/
def FluentAsyncIterable.toArrayM (stored : JsVal) : Except String (List JsVal) :=
  if hasAsyncIterMember stored then .ok (aiterOf stored)
  else if hasSyncIterMember stored then .ok (iterOf stored)
  else .error "TypeError"

/-- The wrapper's `[Symbol.iterator]()` method,
`return this.#input[Symbol.iterator]();`: if the stored value does not expose
a callable `Symbol.iterator`, the call throws a `TypeError` at this point —
the moment a traversal is first driven. -/
def symbolIteratorCall (stored : JsVal) : Except String (List JsVal) :=
  if hasSyncIterMember stored then .ok (iterOf stored)
  else .error "this.#input[Symbol.iterator] is not a function"

/-- Wrapping a plain array and materializing it:
`new FluentIterable(S).toArray()`. -/
def FluentIterable.wrapToArray (s : List JsVal) : Except String (List JsVal) :=
  (constructSync (.arr s)).bind toArrayFrom

/-- Wrapping an async sequence and materializing it:
`await new FluentAsyncIterable(S).toArray()`. -/
def FluentAsyncIterable.wrapToArray (s : List JsVal) : Except String (List JsVal) :=
  (constructAsync (.asyncSeq s)).bind FluentAsyncIterable.toArrayM

/-- `FluentIterable.zip`'s generator: pull one element from each cursor; if
either cursor is done, `return` (ending the sequence without emitting the
pair), else yield the pair and loop. -/
def FluentIterable.zipGen {α β : Type} : List α → List β → List (α × β)
  | x :: xs, y :: ys => (x, y) :: FluentIterable.zipGen xs ys
  | _, _ => []

/-- `FluentAsyncIterable.zip`'s generator: identical pairing logic; the
`Promise.all` of the two `next()` calls only overlaps their latency. -/
def FluentAsyncIterable.zipGen {α β : Type} : List α → List β → List (α × β)
  | x :: xs, y :: ys => (x, y) :: FluentAsyncIterable.zipGen xs ys
  | _, _ => []

/-- `FluentIterable.all`: return `false` at the first element failing the
predicate, `true` after an exhausted source. -/
def FluentIterable.all (p : JsVal → Bool) : List JsVal → Bool
  | [] => true
  | x :: xs => if !(p x) then false else FluentIterable.all p xs

/-- `FluentIterable.every`: alias returning `this.all(predicate)`. -/
def FluentIterable.every (p : JsVal → Bool) (xs : List JsVal) : Bool :=
  FluentIterable.all p xs

/-- `FluentIterable.any`: return `true` at the first element satisfying the
predicate, `false` after an exhausted source. -/
def FluentIterable.any (p : JsVal → Bool) : List JsVal → Bool
  | [] => false
  | x :: xs => if p x then true else FluentIterable.any p xs

/-- `FluentIterable.some`: alias returning `this.any(predicate)`. -/
def FluentIterable.some (p : JsVal → Bool) (xs : List JsVal) : Bool :=
  FluentIterable.any p xs

/-- `FluentAsyncIterable.all` (awaiting the predicate is transparent in the
model). -/
def FluentAsyncIterable.all (p : JsVal → Bool) : List JsVal → Bool
  | [] => true
  | x :: xs => if !(p x) then false else FluentAsyncIterable.all p xs

/-- `FluentAsyncIterable.every`: alias returning `await this.all(predicate)`. -/
def FluentAsyncIterable.every (p : JsVal → Bool) (xs : List JsVal) : Bool :=
  FluentAsyncIterable.all p xs

/-- `FluentAsyncIterable.any`. -/
def FluentAsyncIterable.any (p : JsVal → Bool) : List JsVal → Bool
  | [] => false
  | x :: xs => if p x then true else FluentAsyncIterable.any p xs

/-- `FluentAsyncIterable.some`: alias returning `await this.any(predicate)`. -/
def FluentAsyncIterable.some (p : JsVal → Bool) (xs : List JsVal) : Bool :=
  FluentAsyncIterable.any p xs

/-- The while-loop of `FluentIterable.flat`'s generator.  The stack of
cursors has its top at the head; each unit of fuel pays for one loop
iteration (`next()` call on the top cursor, then pop / push / yield).
`none` means the fuel ran out, i.e. the loop performs more iterations than
the given fuel — for every fuel, on a divergent input. -/
def flatLoop : Nat → List (List JsVal) → List JsVal → Option (List JsVal)
  | 0, _, _ => none
  | _ + 1, [], acc => Option.some acc.reverse
  | fuel + 1, [] :: rest, acc => flatLoop fuel rest acc
  | fuel + 1, (x :: xs) :: rest, acc =>
    if isIterable x then flatLoop fuel (iterOf x :: xs :: rest) acc
    else flatLoop fuel (xs :: rest) (x :: acc)

/-- `FluentIterable.flat` run over a source producing `xs`: the stack starts
with the source's own cursor. -/
def FluentIterable.flatRun (fuel : Nat) (xs : List JsVal) : Option (List JsVal) :=
  flatLoop fuel [xs] []

/-- The while-loop of `FluentAsyncIterable.flat`'s generator: an element with
the asynchronous capability has its async cursor pushed; failing that, one
with the synchronous capability has its sync cursor pushed; otherwise it is
yielded. -/
def aflatLoop : Nat → List (List JsVal) → List JsVal → Option (List JsVal)
  | 0, _, _ => none
  | _ + 1, [], acc => Option.some acc.reverse
  | fuel + 1, [] :: rest, acc => aflatLoop fuel rest acc
  | fuel + 1, (x :: xs) :: rest, acc =>
    if isAsyncIterable x then aflatLoop fuel (aiterOf x :: xs :: rest) acc
    else if isIterable x then aflatLoop fuel (iterOf x :: xs :: rest) acc
    else aflatLoop fuel (xs :: rest) (x :: acc)

/-- `FluentAsyncIterable.flat` run over a source producing `xs`. -/
def FluentAsyncIterable.flatRun (fuel : Nat) (xs : List JsVal) : Option (List JsVal) :=
  aflatLoop fuel [xs] []

mutual

/-- Deep absence of strings: no `str` value occurs anywhere inside the value,
and `stringFreeList` states it for every element of a list.  Under the code's
classifier a string is an infinitely-nested iterable (each of its characters
is again a non-empty string), so string-free values are exactly the ones
whose nesting structure is well-founded. -/
def stringFree : JsVal → Bool
  | .str _ => false
  | .arr xs => stringFreeList xs
  | .asyncSeq xs => stringFreeList xs
  | .fn r => stringFree r
  | _ => true

/-- String-freedom of every element of a list. -/
def stringFreeList : List JsVal → Bool
  | [] => true
  | x :: xs => stringFree x && stringFreeList xs

end

mutual

/-- Modelled from the spec (section 4.4): the depth-first sequence of leaves
of a nested value under the synchronous notion of enumerability — a
synchronous enumerable is descended into, anything else (including an
async-only enumerable) is a leaf emitted as a unit. -/
def specLeavesSync : JsVal → List JsVal
  | .arr xs => specLeavesSyncList xs
  | v => [v]

/-- Depth-first leaves of each element of a list, concatenated in order. -/
def specLeavesSyncList : List JsVal → List JsVal
  | [] => []
  | x :: xs => specLeavesSync x ++ specLeavesSyncList xs

end

mutual

/-- Modelled from the spec (section 4.4): the depth-first sequence of leaves
under the asynchronous variant's notion — enumerables of either capability
are descended into. -/
def specLeavesAsync : JsVal → List JsVal
  | .arr xs => specLeavesAsyncList xs
  | .asyncSeq xs => specLeavesAsyncList xs
  | v => [v]

/-- Depth-first async-variant leaves of each element of a list. -/
def specLeavesAsyncList : List JsVal → List JsVal
  | [] => []
  | x :: xs => specLeavesAsync x ++ specLeavesAsyncList xs

end

mutual

/-- Loop iterations contributed by one element of a cursor during the
synchronous flat loop: one observation of the element, plus, for an iterable
element, the cost of draining the cursor pushed for it. -/
def szV : JsVal → Nat
  | .arr xs => 2 + szVList xs
  | _ => 1

/-- Summed per-element costs of a cursor's elements. -/
def szVList : List JsVal → Nat
  | [] => 0
  | x :: xs => szV x + szVList xs

end

/-- Loop iterations needed to drain one cursor: one per element (plus nested
costs) and a final pop when it is found exhausted. -/
def szL (xs : List JsVal) : Nat :=
  1 + szVList xs

mutual

/-- Loop iterations for one element in the asynchronous flat loop, where both
capabilities are descended into. -/
def aszV : JsVal → Nat
  | .arr xs => 2 + aszVList xs
  | .asyncSeq xs => 2 + aszVList xs
  | _ => 1

/-- Summed per-element costs for the asynchronous flat loop. -/
def aszVList : List JsVal → Nat
  | [] => 0
  | x :: xs => aszV x + aszVList xs

end

/-- Cursor-draining cost for the asynchronous flat loop. -/
def aszL (xs : List JsVal) : Nat :=
  1 + aszVList xs

/-- The kinds of value a wrapper's private `#input` field can hold, for
reasoning about repeated traversal: a plain array restarts from the beginning
each time its `Symbol.iterator` is requested, while a generator object — the
result of the constructor calling the generator function handed to it by
`map`, `filter`, `concat`, `flat`, `enumerate` and `zip` — returns itself
from `Symbol.iterator` and is permanently exhausted once drained. -/
inductive StoredSource : Type where
  | restartable (elems : List JsVal)
  | generatorObj (remaining : List JsVal)
deriving Repr

/-- Constructor input in the stateful model: either an iterable (an array),
or a generator function whose single invocation yields a generator object
that will produce `produced`. -/
inductive CtorInput : Type where
  | iterableArr (elems : List JsVal)
  | genFn (produced : List JsVal)
deriving Repr

/-- The constructor's classification in the stateful model: an iterable input
is stored directly; a function input is invoked once and the resulting
generator object is stored. -/
def constructStore : CtorInput → StoredSource
  | .iterableArr xs => .restartable xs
  | .genFn xs => .generatorObj xs

/-- One full traversal of the stored source (what `Array.from(this.#input)`
performs): the produced elements, together with the source's state
afterwards.  Draining a generator object leaves it exhausted. -/
def drainOnce : StoredSource → List JsVal × StoredSource
  | .restartable xs => (xs, .restartable xs)
  | .generatorObj xs => (xs, .generatorObj [])

/-- Elements produced by the first full traversal. -/
def firstTraversal (s : StoredSource) : List JsVal :=
  (drainOnce s).1

/-- Elements produced by a second full traversal following the first. -/
def secondTraversal (s : StoredSource) : List JsVal :=
  (drainOnce (drainOnce s).2).1

/-- `FluentIterable.map` in the stateful model: it hands the constructor a
generator function closing over the parent's elements, so the new wrapper
stores the generator object obtained by that one invocation. -/
def FluentIterable.mapStage (f : JsVal → JsVal) (parentElems : List JsVal) : StoredSource :=
  constructStore (.genFn (parentElems.map f))

/-- A string-free value that the classifier accepts as synchronously
enumerable can only be an array. -/
theorem iterable_stringFree_eq_arr (x : JsVal) (h1 : stringFree x = true)
    (h2 : isIterable x = true) : ∃ ys, x = JsVal.arr ys := by
  cases x <;> simp_all [stringFree, isIterable, truthy, hasSyncIterMember]

/-- A value the asynchronous classifier accepts can only be an async
sequence. -/
theorem asyncIterable_eq_asyncSeq (x : JsVal) (h2 : isAsyncIterable x = true) :
    ∃ ys, x = JsVal.asyncSeq ys := by
  cases x <;> simp_all [isAsyncIterable, truthy, hasAsyncIterMember]

/-- Claim C1: refuted by the code.  The classifier counts a non-empty
primitive string as synchronously enumerable, and on a source whose only
element is the string "a" the synchronous flat loop never terminates — no
amount of fuel makes it produce anything, because descending into a
one-character string pushes a cursor that produces that same string again —
instead of emitting the string as a leaf of the flattened sequence. -/
theorem flat_descends_into_strings_and_diverges :
    isIterable (.str "a") = true ∧
    ∀ fuel : Nat, FluentIterable.flatRun fuel [.str "a"] = none := by
  refine ⟨rfl, ?_⟩
  have key : ∀ (f : Nat) (rest : List (List JsVal)) (acc : List JsVal),
      flatLoop f ([JsVal.str "a"] :: rest) acc = none := by
    intro f
    induction f with
    | zero => intro rest acc; rfl
    | succ n ih =>
      intro rest acc
      have hs : iterOf (JsVal.str "a") = [JsVal.str "a"] := rfl
      have hit : isIterable (JsVal.str "a") = true := rfl
      simp only [flatLoop, hit, if_true, hs]
      exact ih ([] :: rest) acc
  intro fuel
  exact key fuel [] []

/-- Claim C2, counterexample: the empty string is neither null nor undefined
and does expose a callable `Symbol.iterator` member, yet `isIterable` returns
`false` for it, because the code tests `Boolean(x)` — truthiness — rather
than mere non-nullishness. -/
theorem isIterable_empty_string_counterexample :
    nonNullish (.str "") = true ∧ hasSyncIterMember (.str "") = true ∧
    isIterable (.str "") = false :=
  ⟨rfl, rfl, rfl⟩

/-- Claim C2 as amended: `isIterable` returns `true` exactly when the value
is truthy and exposes a callable `Symbol.iterator` member, and
`isAsyncIterable` returns `true` exactly when the value is truthy and
exposes a callable `Symbol.asyncIterator` member; both are total functions
(absence of the capability yields `false`, never an error). -/
theorem classifier_truthy_and_member_iff (x : JsVal) :
    (isIterable x = true ↔ truthy x = true ∧ hasSyncIterMember x = true) ∧
    (isAsyncIterable x = true ↔ truthy x = true ∧ hasAsyncIterMember x = true) := by
  constructor <;> simp [isIterable, isAsyncIterable]

/-- Claim C3, counterexample: constructing the synchronous wrapper from a
plain number raises a `TypeError` whose message is `input is not an
iterable`, not the message the claim states. -/
theorem construct_error_message_counterexample :
    constructSync (.num 5) = .error "input is not an iterable" ∧
    "input is not an iterable" ≠ "input is not an enumerable of the expected capability" :=
  ⟨rfl, by decide⟩

/-- Claim C3 as amended: each constructor classifies its input once, at
construction — an input with the matching capability is stored directly, a
callable input is invoked and its result stored, and anything else raises a
type error, with message `input is not an iterable` for the synchronous
wrapper and `input is not an async iterable` for the asynchronous one. -/
theorem constructor_classification (v : JsVal) :
    (isIterable v = true → constructSync v = .ok v) ∧
    (isIterable v = false → isCallable v = true → constructSync v = .ok (call0 v)) ∧
    (isIterable v = false → isCallable v = false →
      constructSync v = .error "input is not an iterable") ∧
    (isAsyncIterable v = true → constructAsync v = .ok v) ∧
    (isAsyncIterable v = false → isCallable v = true → constructAsync v = .ok (call0 v)) ∧
    (isAsyncIterable v = false → isCallable v = false →
      constructAsync v = .error "input is not an async iterable") := by
  refine ⟨fun h1 => ?_, fun h1 h2 => ?_, fun h1 h2 => ?_,
    fun h1 => ?_, fun h1 h2 => ?_, fun h1 h2 => ?_⟩
  · simp [constructSync, h1]
  · simp [constructSync, h1, h2]
  · simp [constructSync, h1, h2]
  · simp [constructAsync, h1]
  · simp [constructAsync, h1, h2]
  · simp [constructAsync, h1, h2]

/-- Witness for the amended claim C3 at concrete inputs: an array input is
stored directly, a supplier input is invoked, and a number input raises the
type error. -/
theorem constructor_classification_witness :
    constructSync (.arr [.num 1]) = .ok (.arr [.num 1]) ∧
    constructSync (.fn (.num 1)) = .ok (.num 1) ∧
    constructAsync (.num 0) = .error "input is not an async iterable" :=
  ⟨(constructor_classification (.arr [.num 1])).1 rfl,
   (constructor_classification (.fn (.num 1))).2.1 rfl rfl,
   (constructor_classification (.num 0)).2.2.2.2.2 rfl rfl⟩

/-- Both zip generators produce the same pairs (the async variant's
`Promise.all` of the two `next()` calls only overlaps latency). -/
theorem zipGen_async_eq_sync {α β : Type} :
    ∀ (as : List α) (bs : List β),
      FluentAsyncIterable.zipGen as bs = FluentIterable.zipGen as bs := by
  intro as
  induction as with
  | nil => intro bs; cases bs <;> rfl
  | cons x xs ih =>
    intro bs
    cases bs with
    | nil => rfl
    | cons y ys => simp [FluentIterable.zipGen, FluentAsyncIterable.zipGen, ih]

/-- The zip generator's length is the minimum of the source lengths. -/
theorem zipGen_length {α β : Type} :
    ∀ (as : List α) (bs : List β),
      (FluentIterable.zipGen as bs).length = min as.length bs.length := by
  intro as
  induction as with
  | nil =>
    intro bs
    cases bs <;> simp [FluentIterable.zipGen]
  | cons x xs ih =>
    intro bs
    cases bs with
    | nil => simp [FluentIterable.zipGen]
    | cons y ys =>
      simp [FluentIterable.zipGen, ih ys, Nat.succ_min_succ]

/-- Index-wise contents of the zip generator. -/
theorem zipGen_getElem? {α β : Type} :
    ∀ (as : List α) (bs : List β) (i : Nat),
      (FluentIterable.zipGen as bs)[i]? =
        match as[i]?, bs[i]? with
        | Option.some a, Option.some b => Option.some (a, b)
        | _, _ => none := by
  intro as
  induction as with
  | nil =>
    intro bs i
    cases bs <;> cases i <;> simp [FluentIterable.zipGen]
  | cons x xs ih =>
    intro bs i
    cases bs with
    | nil => cases i <;> simp [FluentIterable.zipGen]
    | cons y ys =>
      cases i with
      | zero => simp [FluentIterable.zipGen]
      | succ j => simp [FluentIterable.zipGen, ih ys j]

/-- Claim C5: `zip` advances both sources in lockstep and stops at the first
exhausted one — for all finite sequences the result has length
`min (len S) (len other)`, its `i`-th element is the pair of the `i`-th
elements of the sources (and `none` past the end), and the synchronous and
asynchronous variants produce the same pairs. -/
theorem zip_lockstep_min_length {α β : Type} (as : List α) (bs : List β) :
    (FluentIterable.zipGen as bs).length = min as.length bs.length ∧
    FluentAsyncIterable.zipGen as bs = FluentIterable.zipGen as bs ∧
    ∀ i : Nat,
      (FluentIterable.zipGen as bs)[i]? =
        match as[i]?, bs[i]? with
        | Option.some a, Option.some b => Option.some (a, b)
        | _, _ => none :=
  ⟨zipGen_length as bs, zipGen_async_eq_sync as bs, fun i => zipGen_getElem? as bs i⟩

/-- Claim C7: wrapping a finite sequence and materializing it returns exactly
its elements in order, for the synchronous wrapper over an array and the
asynchronous wrapper over an async sequence. -/
theorem wrap_toArray_identity (s : List JsVal) :
    FluentIterable.wrapToArray s = .ok s ∧
    FluentAsyncIterable.wrapToArray s = .ok s :=
  ⟨rfl, rfl⟩

/-- `all` is `false` whenever some prefix of satisfied elements is followed
by a failing element, whatever comes afterwards. -/
theorem all_false_after_prefix (p : JsVal → Bool) :
    ∀ (pre : List JsVal), (∀ y ∈ pre, p y = true) → ∀ (x : JsVal), p x = false →
      ∀ (post : List JsVal),
        FluentIterable.all p (pre ++ x :: post) = false ∧
        FluentAsyncIterable.all p (pre ++ x :: post) = false := by
  intro pre
  induction pre with
  | nil =>
    intro _ x hx post
    simp [FluentIterable.all, FluentAsyncIterable.all, hx]
  | cons z zs ih =>
    intro hall x hx post
    have hz : p z = true := hall z (List.mem_cons_self z zs)
    have hzs : ∀ y ∈ zs, p y = true := fun y hy => hall y (List.mem_cons_of_mem z hy)
    have := ih hzs x hx post
    simp [FluentIterable.all, FluentAsyncIterable.all, hz, this.1, this.2]

/-- `any` is `true` whenever some prefix of failing elements is followed by a
satisfying element, whatever comes afterwards. -/
theorem any_true_after_prefix (p : JsVal → Bool) :
    ∀ (pre : List JsVal), (∀ y ∈ pre, p y = false) → ∀ (x : JsVal), p x = true →
      ∀ (post : List JsVal),
        FluentIterable.any p (pre ++ x :: post) = true ∧
        FluentAsyncIterable.any p (pre ++ x :: post) = true := by
  intro pre
  induction pre with
  | nil =>
    intro _ x hx post
    simp [FluentIterable.any, FluentAsyncIterable.any, hx]
  | cons z zs ih =>
    intro hall x hx post
    have hz : p z = false := hall z (List.mem_cons_self z zs)
    have hzs : ∀ y ∈ zs, p y = false := fun y hy => hall y (List.mem_cons_of_mem z hy)
    have := ih hzs x hx post
    simp [FluentIterable.any, FluentAsyncIterable.any, hz, this.1, this.2]

/-- Claim C8: over an empty source `all` returns `true` and `any` returns
`false`; `all` short-circuits to `false` at the first element failing the
predicate and `any` short-circuits to `true` at the first element satisfying
it, independently of everything after that element; `every` and `some` are
aliases of `all` and `any` — in the synchronous and asynchronous variants
alike. -/
theorem all_any_empty_and_short_circuit :
    (∀ p : JsVal → Bool,
      FluentIterable.all p [] = true ∧ FluentIterable.any p [] = false ∧
      FluentAsyncIterable.all p [] = true ∧ FluentAsyncIterable.any p [] = false) ∧
    (∀ (p : JsVal → Bool) (pre post : List JsVal) (x : JsVal),
      (∀ y ∈ pre, p y = true) → p x = false →
      FluentIterable.all p (pre ++ x :: post) = false ∧
      FluentAsyncIterable.all p (pre ++ x :: post) = false) ∧
    (∀ (p : JsVal → Bool) (pre post : List JsVal) (x : JsVal),
      (∀ y ∈ pre, p y = false) → p x = true →
      FluentIterable.any p (pre ++ x :: post) = true ∧
      FluentAsyncIterable.any p (pre ++ x :: post) = true) ∧
    (∀ (p : JsVal → Bool) (xs : List JsVal),
      FluentIterable.every p xs = FluentIterable.all p xs ∧
      FluentIterable.some p xs = FluentIterable.any p xs ∧
      FluentAsyncIterable.every p xs = FluentAsyncIterable.all p xs ∧
      FluentAsyncIterable.some p xs = FluentAsyncIterable.any p xs) :=
  ⟨fun _ => ⟨rfl, rfl, rfl, rfl⟩,
   fun p pre post x h1 h2 => all_false_after_prefix p pre h1 x h2 post,
   fun p pre post x h1 h2 => any_true_after_prefix p pre h1 x h2 post,
   fun _ _ => ⟨rfl, rfl, rfl, rfl⟩⟩

/-- Witness for claim C8 at concrete inputs: `all` short-circuits at the
falsy element `0` after the truthy prefix `[1]`, and `any` short-circuits at
the truthy element `1` after the falsy prefix `[0]`. -/
theorem all_any_short_circuit_witness :
    FluentIterable.all truthy ([.num 1] ++ .num 0 :: [.bool true]) = false ∧
    FluentIterable.any truthy ([.num 0] ++ .num 1 :: [.bool false]) = true :=
  ⟨(all_any_empty_and_short_circuit.2.1 truthy [.num 1] [.bool true] (.num 0)
      (by intro y hy; simp at hy; subst hy; rfl) rfl).1,
   (all_any_empty_and_short_circuit.2.2.1 truthy [.num 0] [.bool false] (.num 1)
      (by intro y hy; simp at hy; subst hy; rfl) rfl).1⟩

/-- Claim C9: every wrapper built by handing the constructor a generator
function — as `map`, `filter`, `concat`, `flat`, `enumerate` and `zip` all
do — is single-pass: the constructor invokes the function once and stores the
resulting one-shot generator object, so the first full traversal produces the
stage's elements and a second full traversal produces the empty sequence,
whereas a wrapper whose stored source is a plain array restarts and produces
its elements again. -/
theorem generator_stage_single_pass :
    (∀ elems : List JsVal,
      firstTraversal (constructStore (.genFn elems)) = elems ∧
      secondTraversal (constructStore (.genFn elems)) = []) ∧
    (∀ (f : JsVal → JsVal) (xs : List JsVal),
      firstTraversal (FluentIterable.mapStage f xs) = xs.map f ∧
      secondTraversal (FluentIterable.mapStage f xs) = []) ∧
    (∀ xs : List JsVal,
      firstTraversal (constructStore (.iterableArr xs)) = xs ∧
      secondTraversal (constructStore (.iterableArr xs)) = xs) :=
  ⟨fun _ => ⟨rfl, rfl⟩, fun _ _ => ⟨rfl, rfl⟩, fun _ => ⟨rfl, rfl⟩⟩

/-- Claim C10: when the constructor input is callable, construction succeeds
no matter what the callable returns — the supplier's result is stored without
any capability check — and with a non-enumerable stored value the failure
surfaces only when a traversal is driven, here when the wrapper's
`Symbol.iterator` method attempts to call the stored value's missing
`Symbol.iterator`. -/
theorem supplier_result_unchecked :
    (∀ v : JsVal, constructSync (.fn v) = .ok v ∧ constructAsync (.fn v) = .ok v) ∧
    constructSync (.fn (.num 5)) = .ok (.num 5) ∧
    symbolIteratorCall (.num 5) =
      .error "this.#input[Symbol.iterator] is not a function" :=
  ⟨fun _ => ⟨rfl, rfl⟩, rfl, rfl⟩

/-- A value rejected by the synchronous classifier is its own single leaf. -/
theorem specLeavesSync_of_not_iterable (x : JsVal) (h : isIterable x = false) :
    specLeavesSync x = [x] := by
  cases x <;> simp_all [isIterable, truthy, hasSyncIterMember, specLeavesSync]

/-- A value rejected by the synchronous classifier has unit cost in the
synchronous flat loop. -/
theorem szV_of_not_iterable (x : JsVal) (h : isIterable x = false) :
    szV x = 1 := by
  cases x <;> simp_all [isIterable, truthy, hasSyncIterMember, szV]

/-- The synchronous flat loop, run on a stack of string-free cursors with
enough fuel, terminates with the accumulated output followed by the
depth-first leaves of the cursors in stack order (top first). -/
theorem flatLoop_spec :
    ∀ (fuel : Nat) (stack : List (List JsVal)) (acc : List JsVal),
      (∀ cur ∈ stack, stringFreeList cur = true) →
      (stack.map szL).sum + 1 ≤ fuel →
      flatLoop fuel stack acc =
        Option.some (acc.reverse ++ (stack.map specLeavesSyncList).flatten) := by
  intro fuel
  induction fuel with
  | zero => intro stack acc _ hb; omega
  | succ n ih =>
    intro stack acc hsf hb
    cases stack with
    | nil => simp [flatLoop]
    | cons cur rest =>
      cases cur with
      | nil =>
        have hrest : ∀ c ∈ rest, stringFreeList c = true :=
          fun c hc => hsf c (List.mem_cons_of_mem _ hc)
        have hb' : (rest.map szL).sum + 1 ≤ n := by
          simp only [List.map_cons, List.sum_cons, szL, szVList] at hb
          omega
        have hstep : flatLoop (n + 1) ([] :: rest) acc = flatLoop n rest acc := by
          simp [flatLoop]
        rw [hstep, ih rest acc hrest hb']
        simp [specLeavesSyncList]
      | cons x xs =>
        have hx : stringFree x = true ∧ stringFreeList xs = true := by
          have := hsf (x :: xs) (List.mem_cons_self _ _)
          simpa [stringFreeList] using this
        by_cases hit : isIterable x = true
        · obtain ⟨ys, rfl⟩ := iterable_stringFree_eq_arr x hx.1 hit
          have hys : stringFreeList ys = true := by
            have := hx.1
            simpa [stringFree] using this
          have hstack : ∀ c ∈ ys :: xs :: rest, stringFreeList c = true := by
            intro c hc
            rcases List.mem_cons.mp hc with h | hc
            · exact h ▸ hys
            rcases List.mem_cons.mp hc with h | hc
            · exact h ▸ hx.2
            exact hsf c (List.mem_cons_of_mem _ hc)
          have hb' : ((ys :: xs :: rest).map szL).sum + 1 ≤ n := by
            simp only [List.map_cons, List.sum_cons, szL, szVList, szV] at hb ⊢
            omega
          have hstep : flatLoop (n + 1) ((JsVal.arr ys :: xs) :: rest) acc =
              flatLoop n (ys :: xs :: rest) acc := by
            simp [flatLoop, hit, iterOf]
          rw [hstep, ih (ys :: xs :: rest) acc hstack hb']
          simp [specLeavesSyncList, specLeavesSync, List.append_assoc]
        · have hit' : isIterable x = false := by
            simpa using hit
          have hxleaf : specLeavesSync x = [x] := specLeavesSync_of_not_iterable x hit'
          have hszx : szV x = 1 := szV_of_not_iterable x hit'
          have hstack : ∀ c ∈ xs :: rest, stringFreeList c = true := by
            intro c hc
            rcases List.mem_cons.mp hc with h | hc
            · exact h ▸ hx.2
            exact hsf c (List.mem_cons_of_mem _ hc)
          have hb' : ((xs :: rest).map szL).sum + 1 ≤ n := by
            simp only [List.map_cons, List.sum_cons, szL, szVList, hszx] at hb ⊢
            omega
          have hstep : flatLoop (n + 1) ((x :: xs) :: rest) acc =
              flatLoop n (xs :: rest) (x :: acc) := by
            simp [flatLoop, hit']
          rw [hstep, ih (xs :: rest) (x :: acc) hstack hb']
          simp [specLeavesSyncList, hxleaf, List.append_assoc]

/-- A value rejected by both classifiers is its own single leaf for the
asynchronous flattening. -/
theorem specLeavesAsync_of_leaf (x : JsVal) (h1 : isAsyncIterable x = false)
    (h2 : isIterable x = false) : specLeavesAsync x = [x] := by
  cases x <;>
    simp_all [isAsyncIterable, isIterable, truthy, hasSyncIterMember,
      hasAsyncIterMember, specLeavesAsync]

/-- A value rejected by both classifiers has unit cost in the asynchronous
flat loop. -/
theorem aszV_of_leaf (x : JsVal) (h1 : isAsyncIterable x = false)
    (h2 : isIterable x = false) : aszV x = 1 := by
  cases x <;>
    simp_all [isAsyncIterable, isIterable, truthy, hasSyncIterMember,
      hasAsyncIterMember, aszV]

/-- The asynchronous flat loop, run on a stack of string-free cursors with
enough fuel, terminates with the accumulated output followed by the
depth-first leaves — descending into enumerables of either capability — of
the cursors in stack order. -/
theorem aflatLoop_spec :
    ∀ (fuel : Nat) (stack : List (List JsVal)) (acc : List JsVal),
      (∀ cur ∈ stack, stringFreeList cur = true) →
      (stack.map aszL).sum + 1 ≤ fuel →
      aflatLoop fuel stack acc =
        Option.some (acc.reverse ++ (stack.map specLeavesAsyncList).flatten) := by
  intro fuel
  induction fuel with
  | zero => intro stack acc _ hb; omega
  | succ n ih =>
    intro stack acc hsf hb
    cases stack with
    | nil => simp [aflatLoop]
    | cons cur rest =>
      cases cur with
      | nil =>
        have hrest : ∀ c ∈ rest, stringFreeList c = true :=
          fun c hc => hsf c (List.mem_cons_of_mem _ hc)
        have hb' : (rest.map aszL).sum + 1 ≤ n := by
          simp only [List.map_cons, List.sum_cons, aszL, aszVList] at hb
          omega
        have hstep : aflatLoop (n + 1) ([] :: rest) acc = aflatLoop n rest acc := by
          simp [aflatLoop]
        rw [hstep, ih rest acc hrest hb']
        simp [specLeavesAsyncList]
      | cons x xs =>
        have hx : stringFree x = true ∧ stringFreeList xs = true := by
          have := hsf (x :: xs) (List.mem_cons_self _ _)
          simpa [stringFreeList] using this
        by_cases hait : isAsyncIterable x = true
        · obtain ⟨ys, rfl⟩ := asyncIterable_eq_asyncSeq x hait
          have hys : stringFreeList ys = true := by
            have := hx.1
            simpa [stringFree] using this
          have hstack : ∀ c ∈ ys :: xs :: rest, stringFreeList c = true := by
            intro c hc
            rcases List.mem_cons.mp hc with h | hc
            · exact h ▸ hys
            rcases List.mem_cons.mp hc with h | hc
            · exact h ▸ hx.2
            exact hsf c (List.mem_cons_of_mem _ hc)
          have hb' : ((ys :: xs :: rest).map aszL).sum + 1 ≤ n := by
            simp only [List.map_cons, List.sum_cons, aszL, aszVList, aszV] at hb ⊢
            omega
          have hstep : aflatLoop (n + 1) ((JsVal.asyncSeq ys :: xs) :: rest) acc =
              aflatLoop n (ys :: xs :: rest) acc := by
            simp [aflatLoop, hait, aiterOf]
          rw [hstep, ih (ys :: xs :: rest) acc hstack hb']
          simp [specLeavesAsyncList, specLeavesAsync, List.append_assoc]
        · have hait' : isAsyncIterable x = false := by simpa using hait
          by_cases hit : isIterable x = true
          · obtain ⟨ys, rfl⟩ := iterable_stringFree_eq_arr x hx.1 hit
            have hys : stringFreeList ys = true := by
              have := hx.1
              simpa [stringFree] using this
            have hstack : ∀ c ∈ ys :: xs :: rest, stringFreeList c = true := by
              intro c hc
              rcases List.mem_cons.mp hc with h | hc
              · exact h ▸ hys
              rcases List.mem_cons.mp hc with h | hc
              · exact h ▸ hx.2
              exact hsf c (List.mem_cons_of_mem _ hc)
            have hb' : ((ys :: xs :: rest).map aszL).sum + 1 ≤ n := by
              simp only [List.map_cons, List.sum_cons, aszL, aszVList, aszV] at hb ⊢
              omega
            have hstep : aflatLoop (n + 1) ((JsVal.arr ys :: xs) :: rest) acc =
                aflatLoop n (ys :: xs :: rest) acc := by
              simp [aflatLoop, hait', hit, iterOf]
            rw [hstep, ih (ys :: xs :: rest) acc hstack hb']
            simp [specLeavesAsyncList, specLeavesAsync, List.append_assoc]
          · have hit' : isIterable x = false := by simpa using hit
            have hxleaf : specLeavesAsync x = [x] := specLeavesAsync_of_leaf x hait' hit'
            have hszx : aszV x = 1 := aszV_of_leaf x hait' hit'
            have hstack : ∀ c ∈ xs :: rest, stringFreeList c = true := by
              intro c hc
              rcases List.mem_cons.mp hc with h | hc
              · exact h ▸ hx.2
              exact hsf c (List.mem_cons_of_mem _ hc)
            have hb' : ((xs :: rest).map aszL).sum + 1 ≤ n := by
              simp only [List.map_cons, List.sum_cons, aszL, aszVList, hszx] at hb ⊢
              omega
            have hstep : aflatLoop (n + 1) ((x :: xs) :: rest) acc =
                aflatLoop n (xs :: rest) (x :: acc) := by
              simp [aflatLoop, hait', hit']
            rw [hstep, ih (xs :: rest) (x :: acc) hstack hb']
            simp [specLeavesAsyncList, hxleaf, List.append_assoc]

/-- Claim C4: over any finite (string-free, hence well-founded) nested
sequence, `flat()` — implemented as an explicit stack of cursors rather than
call recursion, with fuel counting its loop iterations — yields exactly the
non-enumerable leaf values in depth-first order; an enumerable element at any
depth is descended into, never emitted as a unit.  Both variants. -/
theorem flat_depth_first_leaves (xs : List JsVal) (h : stringFreeList xs = true) :
    FluentIterable.flatRun (szL xs + 1) xs = Option.some (specLeavesSyncList xs) ∧
    FluentAsyncIterable.flatRun (aszL xs + 1) xs = Option.some (specLeavesAsyncList xs) := by
  constructor
  · have hs := flatLoop_spec (szL xs + 1) [xs] []
      (by intro c hc; simp only [List.mem_singleton] at hc; exact hc ▸ h) (by simp)
    simpa [FluentIterable.flatRun] using hs
  · have hs := aflatLoop_spec (aszL xs + 1) [xs] []
      (by intro c hc; simp only [List.mem_singleton] at hc; exact hc ▸ h) (by simp)
    simpa [FluentAsyncIterable.flatRun] using hs

/-- Witness for claim C4: flattening `[1, [2, [3, 4]], 7]` yields
`[1, 2, 3, 4, 7]`. -/
theorem flat_depth_first_leaves_witness :
    stringFreeList
        [JsVal.num 1, .arr [.num 2, .arr [.num 3, .num 4]], .num 7] = true ∧
    FluentIterable.flatRun
        (szL [JsVal.num 1, .arr [.num 2, .arr [.num 3, .num 4]], .num 7] + 1)
        [JsVal.num 1, .arr [.num 2, .arr [.num 3, .num 4]], .num 7]
      = Option.some [JsVal.num 1, .num 2, .num 3, .num 4, .num 7] := by
  have hsf : stringFreeList
      [JsVal.num 1, .arr [.num 2, .arr [.num 3, .num 4]], .num 7] = true := by
    simp [stringFreeList, stringFree]
  refine ⟨hsf, ?_⟩
  rw [(flat_depth_first_leaves _ hsf).1]
  simp [specLeavesSyncList, specLeavesSync]

/-- Claim C6: the asynchronous `flat()` descends into nested enumerables of
either capability — a synchronous enumerable nested inside an asynchronous
sequence is flattened into its leaves — whereas the synchronous `flat()`
treats an asynchronous enumerable nested inside a synchronous sequence as a
leaf, emitting it as a unit rather than flattening it. -/
theorem async_flat_mixed_capabilities (xs : List JsVal) (h : stringFreeList xs = true) :
    FluentAsyncIterable.flatRun (aszL [JsVal.arr xs] + 1) [JsVal.arr xs] =
      Option.some (specLeavesAsyncList xs) ∧
    FluentIterable.flatRun 4 [JsVal.asyncSeq xs] = Option.some [JsVal.asyncSeq xs] := by
  constructor
  · have hsf : ∀ c ∈ [[JsVal.arr xs]], stringFreeList c = true := by
      intro c hc
      simp only [List.mem_singleton] at hc
      subst hc
      simp [stringFreeList, stringFree, h]
    have hs := aflatLoop_spec (aszL [JsVal.arr xs] + 1) [[JsVal.arr xs]] [] hsf (by simp)
    simpa [FluentAsyncIterable.flatRun, specLeavesAsyncList, specLeavesAsync] using hs
  · rfl

/-- Witness for claim C6: the async variant flattens the synchronous array
`[1, 2]` nested in an async sequence, while the sync variant emits the async
sequence `[1, 2]` as a single unflattened element. -/
theorem async_flat_mixed_capabilities_witness :
    stringFreeList [JsVal.num 1, JsVal.num 2] = true ∧
    FluentAsyncIterable.flatRun (aszL [JsVal.arr [JsVal.num 1, JsVal.num 2]] + 1)
        [JsVal.arr [JsVal.num 1, JsVal.num 2]]
      = Option.some [JsVal.num 1, JsVal.num 2] ∧
    FluentIterable.flatRun 4 [JsVal.asyncSeq [JsVal.num 1, JsVal.num 2]]
      = Option.some [JsVal.asyncSeq [JsVal.num 1, JsVal.num 2]] := by
  have hsf : stringFreeList [JsVal.num 1, JsVal.num 2] = true := by
    simp [stringFreeList, stringFree]
  refine ⟨hsf, ?_, (async_flat_mixed_capabilities [JsVal.num 1, JsVal.num 2] hsf).2⟩
  rw [(async_flat_mixed_capabilities [JsVal.num 1, JsVal.num 2] hsf).1]
  simp [specLeavesAsyncList, specLeavesAsync]
